import Mathlib

set_option maxRecDepth 100000

/-!
Shallow embedding of `pkg/proto/handshake.go` (package `proto`) of the
`utt` repository, together with proofs about the handshake codecs.

Modelling conventions:
* Go byte slices (`[]byte`) and strings are modelled as `List Nat`; every
  read of a byte from a buffer is canonicalised with `% 256`, so the model
  agrees with Go on all genuine byte buffers and is still total on
  arbitrary `List Nat`.
* Go fixed arrays (`[16]byte`, `[31]byte`) are `List Nat` fields whose
  length invariant (16 resp. 31) is carried as a hypothesis where needed.
* A Go method that mutates its receiver and returns `error` becomes a
  function from the receiver to an `Outcome` carrying the updated state;
  a Go runtime panic from a failed slice-bounds check becomes the
  explicit outcome `panicked` (no out-of-bounds memory access happens in
  Go; the runtime halts instead).
* Machine-integer arithmetic is `Nat` with explicit `% 2^8`, `% 2^16`,
  `% 2^64` exactly where the Go types `uint8`, `uint16`, `uint64` wrap.
* The sentinel errors `ErrInvalidPacket`, `ErrContentTooLong`,
  `ErrBufferTooShort` live outside `src/` (only this file's subject
  refers to them); they are opaque values and are modelled as a plain
  inductive of three distinct constructors.
-/

namespace UTT

/-- The three sentinel protocol errors referenced by `handshake.go`. -/
inductive ProtoError where
  | invalidPacket
  | contentTooLong
  | bufferTooShort
deriving DecidableEq, Repr

/-- Result of running a Go method that may mutate state, return an error,
or hit a runtime panic from a failed slice-bounds check.  `ok` and `err`
carry the receiver state after the mutations performed so far. -/
inductive Outcome (σ : Type) where
  | ok (s : σ)
  | err (s : σ) (e : ProtoError)
  | panicked
deriving DecidableEq, Repr

/-- Go's checked slice expression `buf[lo:hi]`: `none` models the
slice-bounds panic when `lo ≤ hi ≤ len(buf)` fails. -/
def goSlice (buf : List Nat) (lo hi : Nat) : Option (List Nat) :=
  if lo ≤ hi ∧ hi ≤ buf.length then some ((buf.drop lo).take (hi - lo)) else none

/-- Go's `copy(dst, src)` on byte slices: copies `min |dst| |src|`
elements of `src` over the front of `dst`, keeping `dst`'s length. -/
def goCopy (dst src : List Nat) : List Nat :=
  src.take (min dst.length src.length) ++ dst.drop (min dst.length src.length)

/-- Read byte `i` of a buffer (buffers hold byte values; `% 256`
canonicalises so the model is total on `List Nat`). -/
def byteAt (buf : List Nat) (i : Nat) : Nat := buf.getD i 0 % 256

/-- Reads `binary.BigEndian.Uint16(buf[i:i+2])`. -/
def be16At (buf : List Nat) (i : Nat) : Nat :=
  byteAt buf i * 256 + byteAt buf (i + 1)

/-- Writes `binary.BigEndian.PutUint16` of `uint16(n)`: two big-endian bytes. -/
def be16put (n : Nat) : List Nat := [n % 65536 / 256, n % 256]

/-! ## Hello -/

/-- The tag `helloMagic = []byte{'u','t','t',0,0,0}`. -/
def helloMagic : List Nat := [117, 116, 116, 0, 0, 0]

/-- Model of `type Hello struct { Challenge [16]byte }`. -/
structure Hello where
  Challenge : List Nat
deriving DecidableEq, Repr

/-- Go `Hello.Len() = len(helloMagic) + len(h.Challenge)` (the array field
always has length 16 in Go). -/
def Hello.Len (h : Hello) : Nat := helloMagic.length + h.Challenge.length

/-- Go `Hello.Encode`: magic tag followed by the 16 challenge bytes (the
caller's buffer is truncated to length 0 first, so the result does not
depend on its prior contents). -/
def Hello.Encode (h : Hello) : List Nat := helloMagic ++ h.Challenge

/-- Go `Hello.Decode`: guard on length and magic, then
`copy(h.Challenge[:16], buf[6:22])`. -/
def Hello.Decode (h : Hello) (buf : List Nat) : Outcome Hello :=
  if buf.length < h.Len ∨ buf.take helloMagic.length ≠ helloMagic then
    .err h .invalidPacket
  else
    .ok { h with Challenge := goCopy h.Challenge ((buf.drop helloMagic.length).take 16) }

/-- A zero-valued `Hello` (Go zero value of the struct; fresh decode target). -/
def freshHello : Hello := ⟨List.replicate 16 0⟩

/-! ## Connect (modulo the HMAC, added further below) -/

/-- Model of `type Connect struct { ACLKey string; Signature []byte }`; both fields
are byte sequences (`ACLKey`'s UTF-8 bytes). -/
structure Connect where
  ACLKey : List Nat
  Signature : List Nat
deriving DecidableEq, Repr

/-- Go `Connect.Len`. -/
def Connect.Len (c : Connect) : Nat := c.ACLKey.length + c.Signature.length

/-- Go `Connect.Encode`: two big-endian `uint16` lengths, then the key
bytes, then the signature bytes; `ErrContentTooLong` when either length
exceeds `0xFFFF`. -/
def Connect.Encode (c : Connect) : Except ProtoError (List Nat) :=
  if 65535 < c.ACLKey.length ∨ 65535 < c.Signature.length then
    .error .contentTooLong
  else
    .ok (be16put c.ACLKey.length ++ be16put c.Signature.length ++ c.ACLKey ++ c.Signature)

/-- Declared identity length of a Connect wire buffer (`Uint16(buf[:2])`). -/
def declIdLen (buf : List Nat) : Nat := be16At buf 0

/-- Declared signature length of a Connect wire buffer (`Uint16(buf[2:4])`). -/
def declSigLen (buf : List Nat) : Nat := be16At buf 2

/-- Go `Connect.Decode`.  The guard `int(msgLen)+int(signLen)+4 > len(buf)`
is `int` arithmetic (no wrap), but the slice bounds `4+msgLen` and
`4+msgLen+signLen` are computed on `uint16` and wrap at 65536; a wrapped
bound fails Go's slice-bounds check and panics. -/
def Connect.Decode (c : Connect) (buf : List Nat) : Outcome Connect :=
  if buf.length < 4 then .err c .invalidPacket
  else
    let msgLen := declIdLen buf
    let signLen := declSigLen buf
    if buf.length < msgLen + signLen + 4 then .err c .invalidPacket
    else
      match goSlice buf 4 ((4 + msgLen) % 65536) with
      | none => .panicked
      | some idBytes =>
        match goSlice buf ((4 + msgLen) % 65536) ((4 + msgLen + signLen) % 65536) with
        | none => .panicked
        | some sigBytes => .ok { ACLKey := idBytes, Signature := sigBytes }

/-- A zero-valued `Connect` (fresh decode target). -/
def freshConnect : Connect := ⟨[], []⟩

/-- The payload of a successful encode (`[]` on the error path, which the
theorems exclude). -/
def exceptOut (e : Except ProtoError (List Nat)) : List Nat :=
  match e with
  | .ok b => b
  | .error _ => []

/-! ## ConnectResult -/

/-- Model of `type ConnectResult struct { Welcome bool; RawMsg [31]byte; MsgLen int }`. -/
structure ConnectResult where
  Welcome : Bool
  RawMsg : List Nat
  MsgLen : Nat
deriving DecidableEq, Repr

/-- Go `ConnectResult.Len`. -/
def ConnectResult.Len (c : ConnectResult) : Nat := 1 + c.MsgLen

/-- Go `ConnectResult.EncodeMessage`: reject a message longer than the
31-byte capacity, otherwise `copy(c.RawMsg[:len(raw)], raw)` and record
the length.  Returns the updated receiver and the Go error value. -/
def ConnectResult.EncodeMessage (c : ConnectResult) (msg : List Nat) :
    ConnectResult × Option ProtoError :=
  if c.RawMsg.length < msg.length then (c, some .bufferTooShort)
  else ({ c with RawMsg := msg ++ c.RawMsg.drop msg.length, MsgLen := msg.length }, none)

/-- Go `ConnectResult.DecodeMessage`: `string(c.RawMsg[:])` — the whole
fixed-capacity array, not trimmed to `MsgLen`. -/
def ConnectResult.DecodeMessage (c : ConnectResult) : List Nat := c.RawMsg

/-- Go `ConnectResult.Encode`: welcome byte, `byte(MsgLen & 0xFF)`, then
`RawMsg[:MsgLen]` (which panics when `MsgLen` exceeds the array length). -/
def ConnectResult.Encode (c : ConnectResult) : Option (List Nat) :=
  if c.RawMsg.length < c.MsgLen then none
  else some ((if c.Welcome then 1 else 0) :: c.MsgLen % 256 :: c.RawMsg.take c.MsgLen)

/-- Go `ConnectResult.Decode`.  Here `msgLen` is a `uint8`; the guard
`int(2+msgLen) > len(buf)` computes `2+msgLen` on `uint8`, wrapping at
256.  `Welcome` is assigned before that guard.  The final
`copy(c.RawMsg[:c.MsgLen], buf[2:2+c.MsgLen])` panics when `MsgLen`
exceeds the 31-byte array or `2+MsgLen` exceeds the buffer. -/
def ConnectResult.Decode (c : ConnectResult) (buf : List Nat) : Outcome ConnectResult :=
  if buf.length < 2 then .err c .invalidPacket
  else
    let msgLen := byteAt buf 1
    let c1 : ConnectResult := { c with Welcome := decide (0 < byteAt buf 0) }
    if buf.length < (2 + msgLen) % 256 then .err c1 .invalidPacket
    else
      let c2 : ConnectResult := { c1 with MsgLen := msgLen }
      if c2.RawMsg.length < msgLen then .panicked
      else if buf.length < 2 + msgLen then .panicked
      else .ok { c2 with RawMsg := (buf.drop 2).take msgLen ++ c2.RawMsg.drop msgLen }

/-- A zero-valued `ConnectResult` (fresh decode target). -/
def freshCR : ConnectResult := ⟨false, List.replicate 31 0, 0⟩

/-! ## SHA-512 and HMAC

`Connect.HMAC` calls `hmac.New(sha512.New, psk)` from Go's standard
library, which is not part of this repository's sources.

Modelled from the spec: the spec (§4.2) prescribes "HMAC using a
512-bit-output hash function, keyed with the PSK"; the import in
`handshake.go` fixes that function to SHA-512.  The definitions below
are FIPS 180-4 SHA-512 and FIPS 198-1 / RFC 2104 HMAC (the construction
`crypto/hmac` implements: a key longer than the 128-byte block is
hashed first, then zero-padded to the block size), over byte lists.
Their faithfulness is checked against published test vectors further
below (`sha512_abc_vector`, `hmac_rfc4231_case2`). -/

/-- The constant `2^64`. -/
def M64 : Nat := 18446744073709551616

/-- Truncate to a 64-bit word. -/
def w64 (n : Nat) : Nat := n % M64

/-- Rotate a 64-bit word right by `k`. -/
def rotr64 (k n : Nat) : Nat := ((n >>> k) ||| (n <<< (64 - k))) % M64

/-- Bitwise complement within 64 bits. -/
def not64 (n : Nat) : Nat := Nat.xor n (M64 - 1)

/-- SHA-512 `Ch(x,y,z)`. -/
def chF (x y z : Nat) : Nat := Nat.xor (x &&& y) (not64 x &&& z)

/-- SHA-512 `Maj(x,y,z)`. -/
def majF (x y z : Nat) : Nat := Nat.xor (Nat.xor (x &&& y) (x &&& z)) (y &&& z)

/-- SHA-512 `Σ₀`. -/
def bsig0 (x : Nat) : Nat := Nat.xor (Nat.xor (rotr64 28 x) (rotr64 34 x)) (rotr64 39 x)

/-- SHA-512 `Σ₁`. -/
def bsig1 (x : Nat) : Nat := Nat.xor (Nat.xor (rotr64 14 x) (rotr64 18 x)) (rotr64 41 x)

/-- SHA-512 `σ₀`. -/
def ssig0 (x : Nat) : Nat := Nat.xor (Nat.xor (rotr64 1 x) (rotr64 8 x)) (x >>> 7)

/-- SHA-512 `σ₁`. -/
def ssig1 (x : Nat) : Nat := Nat.xor (Nat.xor (rotr64 19 x) (rotr64 61 x)) (x >>> 6)

/-- The 80 SHA-512 round constants. -/
def K512 : List Nat :=
  [4794697086780616226, 8158064640168781261, 13096744586834688815,
   16840607885511220156, 4131703408338449720, 6480981068601479193,
   10538285296894168987, 12329834152419229976, 15566598209576043074,
   1334009975649890238, 2608012711638119052, 6128411473006802146,
   8268148722764581231, 9286055187155687089, 11230858885718282805,
   13951009754708518548, 16472876342353939154, 17275323862435702243,
   1135362057144423861, 2597628984639134821, 3308224258029322869,
   5365058923640841347, 6679025012923562964, 8573033837759648693,
   10970295158949994411, 12119686244451234320, 12683024718118986047,
   13788192230050041572, 14330467153632333762, 15395433587784984357,
   489312712824947311, 1452737877330783856, 2861767655752347644,
   3322285676063803686, 5560940570517711597, 5996557281743188959,
   7280758554555802590, 8532644243296465576, 9350256976987008742,
   10552545826968843579, 11727347734174303076, 12113106623233404929,
   14000437183269869457, 14369950271660146224, 15101387698204529176,
   15463397548674623760, 17586052441742319658, 1182934255886127544,
   1847814050463011016, 2177327727835720531, 2830643537854262169,
   3796741975233480872, 4115178125766777443, 5681478168544905931,
   6601373596472566643, 7507060721942968483, 8399075790359081724,
   8693463985226723168, 9568029438360202098, 10144078919501101548,
   10430055236837252648, 11840083180663258601, 13761210420658862357,
   14299343276471374635, 14566680578165727644, 15097957966210449927,
   16922976911328602910, 17689382322260857208, 500013540394364858,
   748580250866718886, 1242879168328830382, 1977374033974150939,
   2944078676154940804, 3659926193048069267, 4368137639120453308,
   4836135668995329356, 5532061633213252278, 6448918945643986474,
   6902733635092675308, 7801388544844847127]

/-- Intermediate SHA-512 hash state: eight 64-bit words. -/
structure H8 where
  a : Nat
  b : Nat
  c : Nat
  d : Nat
  e : Nat
  f : Nat
  g : Nat
  h : Nat
deriving DecidableEq, Repr

/-- SHA-512 initial hash value. -/
def initH512 : H8 :=
  ⟨7640891576956012808, 13503953896175478587,
   4354685564936845355, 11912009170470909681,
   5840696475078001361, 11170449401992604703,
   2270897969802886507, 6620516959819538809⟩

/-- A 64-bit word as eight big-endian bytes. -/
def wordToBytes (w : Nat) : List Nat :=
  [w >>> 56 % 256, w >>> 48 % 256, w >>> 40 % 256, w >>> 32 % 256,
   w >>> 24 % 256, w >>> 16 % 256, w >>> 8 % 256, w % 256]

/-- Eight big-endian bytes as a 64-bit word. -/
def bytesToWord (l : List Nat) : Nat := l.foldl (fun acc b => acc * 256 + b % 256) 0

/-- Split a list into chunks of `n` (fuel-driven; the fuel `l.length`
always suffices). -/
def chunksF (n : Nat) : Nat → List Nat → List (List Nat)
  | 0, _ => []
  | _, [] => []
  | fuel + 1, l => l.take n :: chunksF n fuel (l.drop n)

/-- Split into chunks of `n` bytes. -/
def chunks (n : Nat) (l : List Nat) : List (List Nat) := chunksF n l.length l

/-- The 16 bytes of big-endian message-length padding (`length in bits`). -/
def len128 (n : Nat) : List Nat :=
  (List.range 16).map (fun i => n >>> ((15 - i) * 8) % 256)

/-- SHA-512 message padding: `0x80`, zeros to 112 mod 128, then the
128-bit big-endian bit length. -/
def padMsg (m : List Nat) : List Nat :=
  let L := m.length
  let zeros := (256 + 112 - (L + 1) % 128) % 128
  m ++ 128 :: List.replicate zeros 0 ++ len128 (L * 8)

/-- One step of the message-schedule extension; `ws` holds the words
produced so far, most recent first. -/
def scheduleStep (ws : List Nat) : List Nat :=
  w64 (ssig1 (ws.getD 1 0) + ws.getD 6 0 + ssig0 (ws.getD 14 0) + ws.getD 15 0) :: ws

/-- The 80-word message schedule of one 128-byte block. -/
def schedule80 (block : List Nat) : List Nat :=
  let w16 := (chunks 8 block).map bytesToWord
  ((List.range 64).foldl (fun ws _ => scheduleStep ws) w16.reverse).reverse

/-- One SHA-512 round. -/
def roundFn (st : H8) (kw : Nat × Nat) : H8 :=
  let t1 := w64 (st.h + bsig1 st.e + chF st.e st.f st.g + kw.1 + kw.2)
  let t2 := w64 (bsig0 st.a + majF st.a st.b st.c)
  ⟨w64 (t1 + t2), st.a, st.b, st.c, w64 (st.d + t1), st.e, st.f, st.g⟩

/-- SHA-512 compression of one 128-byte block. -/
def compress512 (st : H8) (block : List Nat) : H8 :=
  let ws := schedule80 block
  let r := (K512.zip ws).foldl roundFn st
  ⟨w64 (st.a + r.a), w64 (st.b + r.b), w64 (st.c + r.c), w64 (st.d + r.d),
   w64 (st.e + r.e), w64 (st.f + r.f), w64 (st.g + r.g), w64 (st.h + r.h)⟩

/-- SHA-512 of a byte list: 64-byte digest. -/
def sha512 (m : List Nat) : List Nat :=
  let final := (chunks 128 (padMsg m)).foldl compress512 initH512
  wordToBytes final.a ++ wordToBytes final.b ++ wordToBytes final.c ++
    wordToBytes final.d ++ wordToBytes final.e ++ wordToBytes final.f ++
    wordToBytes final.g ++ wordToBytes final.h

/-- HMAC-SHA512 as implemented by `crypto/hmac` (RFC 2104): block size
128; a key longer than one block is hashed; inner pad `0x36`, outer pad
`0x5c`. -/
def hmacSha512 (key text : List Nat) : List Nat :=
  let k0 := if 128 < key.length then sha512 key else key
  let kp := k0 ++ List.replicate (128 - k0.length) 0
  sha512 (kp.map (fun b => Nat.xor (b % 256) 92) ++
    sha512 (kp.map (fun b => Nat.xor (b % 256) 54) ++ text))

/-! ## Connect.HMAC / Sign / Verify -/

/-- UTF-8 bytes of the string literal `"cha"`. -/
def chaTag : List Nat := [99, 104, 97]

/-- UTF-8 bytes of the string literal `"acl#"`. -/
def aclTag : List Nat := [97, 99, 108, 35]

/-- Go `Connect.HMAC`: three successive `Write`s into the HMAC stream —
`"cha"`, the challenge, and `"acl#" + c.ACLKey` (Go string concatenation,
whose UTF-8 bytes are the concatenated byte sequences) — then `Sum`. -/
def Connect.HMAC (c : Connect) (challenge psk : List Nat) : List Nat :=
  hmacSha512 psk ((([] ++ chaTag) ++ challenge) ++ (aclTag ++ c.ACLKey))

/-- Go `Connect.Sign`: store the HMAC as the signature. -/
def Connect.Sign (c : Connect) (challenge psk : List Nat) : Connect :=
  { c with Signature := c.HMAC challenge psk }

/-- Go `Connect.Verify`: `bytes.Compare(c.Signature, c.HMAC(..)) == 0`,
i.e. byte-for-byte equality of the stored proof with the recomputed one. -/
def Connect.Verify (c : Connect) (challenge psk : List Nat) : Bool :=
  c.Signature == c.HMAC challenge psk

/-- The proof digest exactly as the spec words it: HMAC with the
512-bit-output hash, keyed with the PSK, over the concatenation of
`"cha"`, the raw challenge bytes, `"acl#"`, and the identity bytes. -/
def specProofDigest (challenge psk identity : List Nat) : List Nat :=
  hmacSha512 psk (chaTag ++ challenge ++ aclTag ++ identity)

/-! ## Validation of the hash model against published test vectors -/

/-- FIPS 180-4 test vector: SHA-512 of `"abc"`. -/
theorem sha512_abc_vector :
    sha512 [97, 98, 99] =
      [221, 175, 53, 161, 147, 97, 122, 186, 204, 65, 115, 73, 174, 32, 65, 49,
       18, 230, 250, 78, 137, 169, 126, 162, 10, 158, 238, 230, 75, 85, 211, 154,
       33, 146, 153, 42, 39, 79, 193, 168, 54, 186, 60, 35, 163, 254, 235, 189,
       69, 77, 68, 35, 100, 60, 232, 14, 42, 154, 201, 79, 165, 76, 164, 159] := by
  decide

/-- RFC 4231 test case 2: HMAC-SHA-512 with key `"Jefe"` and data
`"what do ya want for nothing?"`. -/
theorem hmac_rfc4231_case2 :
    hmacSha512 [74, 101, 102, 101]
      [119, 104, 97, 116, 32, 100, 111, 32, 121, 97, 32, 119, 97, 110, 116, 32,
       102, 111, 114, 32, 110, 111, 116, 104, 105, 110, 103, 63] =
      [22, 75, 122, 123, 252, 248, 25, 226, 227, 149, 251, 231, 59, 86, 224, 163,
       135, 189, 100, 34, 46, 131, 31, 214, 16, 39, 12, 215, 234, 37, 5, 84,
       151, 88, 191, 117, 192, 90, 153, 74, 109, 3, 79, 101, 248, 240, 230, 253,
       202, 234, 177, 163, 77, 74, 107, 75, 99, 110, 7, 10, 56, 188, 231, 55] := by
  decide

/-- Every SHA-512 digest in this model has exactly 64 bytes. -/
theorem sha512_length (m : List Nat) : (sha512 m).length = 64 := by
  simp [sha512, wordToBytes]

/-- Every HMAC-SHA-512 digest in this model has exactly 64 bytes. -/
theorem hmacSha512_length (key text : List Nat) : (hmacSha512 key text).length = 64 := by
  rw [hmacSha512]
  exact sha512_length _

/-! ## Claim theorems -/

/-- C3: for every challenge, PSK and identity, `Connect.HMAC` equals
HMAC-SHA-512 keyed with the PSK over the exact concatenation
`"cha" ++ challenge ++ "acl#" ++ identity`, and the digest has exactly
64 bytes. -/
theorem connect_hmac_matches_spec_digest (identity sig challenge psk : List Nat) :
    Connect.HMAC ⟨identity, sig⟩ challenge psk = specProofDigest challenge psk identity ∧
    (Connect.HMAC ⟨identity, sig⟩ challenge psk).length = 64 := by
  constructor
  · simp [Connect.HMAC, specProofDigest]
  · rw [Connect.HMAC]
    exact hmacSha512_length _ _

/-- C4: `Connect.Verify` returns true iff the stored proof equals the
recomputed HMAC, and signing with a challenge and PSK makes verification
with the same challenge and PSK succeed. -/
theorem verify_iff_and_sign_verify (c : Connect) (challenge psk : List Nat) :
    (Connect.Verify c challenge psk = true ↔ c.Signature = c.HMAC challenge psk) ∧
    Connect.Verify (c.Sign challenge psk) challenge psk = true := by
  refine ⟨beq_iff_eq, ?_⟩
  simp [Connect.Verify, Connect.Sign, Connect.HMAC]

/-- Returns `true` iff an encode result is a success. -/
def isOkE (e : Except ProtoError (List Nat)) : Bool :=
  match e with
  | .ok _ => true
  | .error _ => false

/-- C5: `Connect.Encode` fails with `ContentTooLong` exactly when the
identity or the proof exceeds 65535 bytes; a 65536-byte identity fails
and a 65535-byte identity succeeds. -/
theorem connect_encode_content_too_long :
    (∀ c : Connect,
      Connect.Encode c = .error .contentTooLong ↔
        65535 < c.ACLKey.length ∨ 65535 < c.Signature.length) ∧
    Connect.Encode ⟨List.replicate 65536 0, []⟩ = .error .contentTooLong ∧
    isOkE (Connect.Encode ⟨List.replicate 65535 0, []⟩) = true := by
  have hiff : ∀ c : Connect,
      Connect.Encode c = .error .contentTooLong ↔
        65535 < c.ACLKey.length ∨ 65535 < c.Signature.length := by
    intro c
    rw [Connect.Encode]
    split
    · next hc => simpa using hc
    · next hc => simpa using hc
  refine ⟨hiff, ?_, ?_⟩
  · rw [Connect.Encode, if_pos (Or.inl (by rw [List.length_replicate]; omega))]
  · rw [Connect.Encode, if_neg (by
      rw [not_or]
      refine ⟨by rw [List.length_replicate]; omega, by decide⟩)]
    rfl

/-- C7: `ConnectResult.EncodeMessage` fails with `BufferTooShort` exactly
when the message exceeds the 31-byte capacity; otherwise it copies the
bytes into the front of the fixed buffer and records the length.  A
32-byte message fails, a 31-byte message succeeds. -/
theorem encode_message_spec (c : ConnectResult) (msg : List Nat)
    (hlen : c.RawMsg.length = 31) :
    ((c.EncodeMessage msg).2 = some .bufferTooShort ↔ 31 < msg.length) ∧
    (msg.length ≤ 31 →
      c.EncodeMessage msg =
        ({ Welcome := c.Welcome, RawMsg := msg ++ c.RawMsg.drop msg.length,
           MsgLen := msg.length }, none)) ∧
    (freshCR.EncodeMessage (List.replicate 32 97)).2 = some .bufferTooShort ∧
    (freshCR.EncodeMessage (List.replicate 31 97)).2 = none := by
  refine ⟨?_, ?_, by decide, by decide⟩
  · rw [ConnectResult.EncodeMessage, hlen]
    split
    · next hc => simpa using hc
    · next hc => simpa using hc
  · intro hle
    rw [ConnectResult.EncodeMessage, hlen, if_neg (by omega)]

/-- Witness for C7 at a 3-byte message into a fresh result. -/
theorem encode_message_spec_witness :
    freshCR.RawMsg.length = 31 ∧
    freshCR.EncodeMessage [1, 2, 3] =
      ({ Welcome := freshCR.Welcome, RawMsg := [1, 2, 3] ++ freshCR.RawMsg.drop 3,
         MsgLen := 3 }, none) :=
  ⟨by decide, (encode_message_spec freshCR [1, 2, 3] (by decide)).2.1 (by decide)⟩

/-- C8: `ConnectResult.DecodeMessage` returns the full 31-byte buffer,
padding and bytes past the recorded length included; it never trims to
the recorded length when that length is below the capacity. -/
theorem decode_message_untrimmed (c : ConnectResult) (hlen : c.RawMsg.length = 31) :
    c.DecodeMessage = c.RawMsg ∧ c.DecodeMessage.length = 31 ∧
    (c.MsgLen < 31 → c.DecodeMessage ≠ c.RawMsg.take c.MsgLen) := by
  refine ⟨rfl, hlen, fun hm heq => ?_⟩
  have hl := congrArg List.length heq
  rw [ConnectResult.DecodeMessage, List.length_take, hlen] at hl
  omega

/-- Witness for C8: a result with recorded length 3 whose read-back is
not the 3-byte prefix. -/
theorem decode_message_untrimmed_witness :
    (⟨false, List.replicate 31 7, 3⟩ : ConnectResult).RawMsg.length = 31 ∧
    (⟨false, List.replicate 31 7, 3⟩ : ConnectResult).MsgLen < 31 ∧
    (⟨false, List.replicate 31 7, 3⟩ : ConnectResult).DecodeMessage ≠
      (⟨false, List.replicate 31 7, 3⟩ : ConnectResult).RawMsg.take 3 :=
  ⟨by decide, by decide,
    (decode_message_untrimmed ⟨false, List.replicate 31 7, 3⟩ (by decide)).2.2 (by decide)⟩

/-- C9: a successful `ConnectResult.Decode` sets the welcome flag for
every nonzero first byte, not only for the value 1. -/
theorem decode_welcome_any_nonzero (c0 r : ConnectResult) (buf : List Nat)
    (hb : 0 < byteAt buf 0) (hok : c0.Decode buf = .ok r) :
    r.Welcome = true := by
  rw [ConnectResult.Decode] at hok
  simp only [] at hok
  split at hok
  · exact absurd hok (by simp)
  · split at hok
    · exact absurd hok (by simp)
    · split at hok
      · exact absurd hok (by simp)
      · split at hok
        · exact absurd hok (by simp)
        · rw [Outcome.ok.injEq] at hok
          rw [← hok]
          simpa using hb

/-- Witness for C9: first byte 2 (not 1) still decodes to an accepted
result. -/
theorem decode_welcome_any_nonzero_witness :
    0 < byteAt [2, 0] 0 ∧
    freshCR.Decode [2, 0] = .ok ⟨true, List.replicate 31 0, 0⟩ ∧
    (⟨true, List.replicate 31 0, 0⟩ : ConnectResult).Welcome = true :=
  ⟨by decide, by decide,
    decode_welcome_any_nonzero freshCR ⟨true, List.replicate 31 0, 0⟩ [2, 0]
      (by decide) (by decide)⟩

/-- C10: when `EncodeMessage` rejects an overlong message it leaves the
receiver — buffer and recorded length — completely unchanged. -/
theorem encode_message_error_atomic (c : ConnectResult) (msg : List Nat)
    (h31 : c.RawMsg.length = 31) (hlong : 31 < msg.length) :
    c.EncodeMessage msg = (c, some .bufferTooShort) := by
  rw [ConnectResult.EncodeMessage, h31, if_pos hlong]

/-- Witness for C10 at a 32-byte message. -/
theorem encode_message_error_atomic_witness :
    freshCR.RawMsg.length = 31 ∧ 31 < (List.replicate 32 97 : List Nat).length ∧
    freshCR.EncodeMessage (List.replicate 32 97) = (freshCR, some .bufferTooShort) :=
  ⟨by decide, by decide,
    encode_message_error_atomic freshCR (List.replicate 32 97) (by decide) (by decide)⟩

/-- Every byte read from a buffer is below 256. -/
theorem byteAt_lt (buf : List Nat) (i : Nat) : byteAt buf i < 256 :=
  Nat.mod_lt _ (by omega)

/-- The declared identity length fits in 16 bits. -/
theorem declIdLen_le (buf : List Nat) : declIdLen buf ≤ 65535 := by
  have a := byteAt_lt buf 0
  have b := byteAt_lt buf (0 + 1)
  rw [declIdLen, be16At]
  omega

/-- The declared signature length fits in 16 bits. -/
theorem declSigLen_le (buf : List Nat) : declSigLen buf ≤ 65535 := by
  have a := byteAt_lt buf 2
  have b := byteAt_lt buf (2 + 1)
  rw [declSigLen, be16At]
  omega

/-- A successful Go slice has ordered bounds inside the buffer and is
the corresponding drop/take window. -/
theorem goSlice_some {buf out : List Nat} {lo hi : Nat}
    (h : goSlice buf lo hi = some out) :
    lo ≤ hi ∧ hi ≤ buf.length ∧ out = (buf.drop lo).take (hi - lo) := by
  rw [goSlice] at h
  split at h
  · next hc =>
    injection h with h
    exact ⟨hc.1, hc.2, h.symm⟩
  · exact absurd h (by simp)

/-- A panicking Go slice has bounds that fail the check. -/
theorem goSlice_none {buf : List Nat} {lo hi : Nat}
    (h : goSlice buf lo hi = none) : ¬(lo ≤ hi ∧ hi ≤ buf.length) := by
  rw [goSlice] at h
  split at h
  · exact absurd h (by simp)
  · next hc => exact hc

/-- C2 (amended): `Connect.Decode` rejects buffers shorter than 4 bytes
and buffers that cannot hold the two declared lengths with
`InvalidPacket`; a successful decode yields exactly
`buf[4 : 4+idLen]` and `buf[4+idLen : 4+idLen+sigLen]`; and the only
other possibility — a slice-bounds panic, not an out-of-bounds read —
requires the 16-bit slice arithmetic `4 + idLen` or
`4 + idLen + sigLen` to overflow 65535. -/
theorem connect_decode_spec (c0 : Connect) (buf : List Nat) :
    (buf.length < 4 → c0.Decode buf = .err c0 .invalidPacket) ∧
    (4 ≤ buf.length → buf.length < declIdLen buf + declSigLen buf + 4 →
      c0.Decode buf = .err c0 .invalidPacket) ∧
    (∀ c, c0.Decode buf = .ok c →
      c.ACLKey = (buf.drop 4).take (declIdLen buf) ∧
      c.Signature = (buf.drop (4 + declIdLen buf)).take (declSigLen buf)) ∧
    (c0.Decode buf = .panicked →
      65535 < 4 + declIdLen buf ∨ 65535 < 4 + declIdLen buf + declSigLen buf) := by
  have hid := declIdLen_le buf
  have hsig := declSigLen_le buf
  refine ⟨fun h4 => ?_, fun h4 hg => ?_, fun c hok => ?_, fun hp => ?_⟩
  · rw [Connect.Decode, if_pos h4]
  · rw [Connect.Decode, if_neg (by omega)]
    simp only []
    rw [if_pos hg]
  · rw [Connect.Decode] at hok
    simp only [] at hok
    split at hok
    · exact Outcome.noConfusion hok
    · split at hok
      · exact Outcome.noConfusion hok
      · split at hok
        · exact Outcome.noConfusion hok
        · split at hok
          · exact Outcome.noConfusion hok
          · rename_i s1 idB hs1 s2 sigB hs2
            obtain ⟨ha1, hb1, hv1⟩ := goSlice_some hs1
            have hm1 : (4 + declIdLen buf) % 65536 = 4 + declIdLen buf := by omega
            rw [hm1] at hv1
            have he1 : 4 + declIdLen buf - 4 = declIdLen buf := by omega
            rw [he1] at hv1
            rw [hm1] at hs2
            obtain ⟨ha2, hb2, hv2⟩ := goSlice_some hs2
            have hm2 : (4 + declIdLen buf + declSigLen buf) % 65536 =
                4 + declIdLen buf + declSigLen buf := by omega
            rw [hm2] at hv2
            have he2 : 4 + declIdLen buf + declSigLen buf - (4 + declIdLen buf) =
                declSigLen buf := by omega
            rw [he2] at hv2
            rw [Outcome.ok.injEq] at hok
            rw [← hok]
            exact ⟨hv1, hv2⟩
  · rw [Connect.Decode] at hp
    simp only [] at hp
    split at hp
    · exact Outcome.noConfusion hp
    · split at hp
      · exact Outcome.noConfusion hp
      · rename_i hlen4 hguard
        split at hp
        · rename_i s1 hs1
          have hno := goSlice_none hs1
          omega
        · rename_i s1 idB hs1
          obtain ⟨ha1, hb1, hv1⟩ := goSlice_some hs1
          have hm1 : (4 + declIdLen buf) % 65536 = 4 + declIdLen buf := by omega
          rw [hm1] at hp
          split at hp
          · rename_i s2 hs2
            have hno := goSlice_none hs2
            omega
          · exact Outcome.noConfusion hp

/-- Go `copy` onto a destination of the same length replaces it entirely. -/
theorem goCopy_full (dst src : List Nat) (h : dst.length = src.length) :
    goCopy dst src = src := by
  rw [goCopy, h, Nat.min_self, List.take_length, ← h, List.drop_length, List.append_nil]

/-- The output of `PutUint16` always has two bytes. -/
theorem be16put_length (n : Nat) : (be16put n).length = 2 := rfl

/-- Decoding an encoded `Hello` into a fresh `Hello` recovers the
original challenge. -/
theorem hello_decode_encode (h : Hello) (hlen : h.Challenge.length = 16) :
    freshHello.Decode (Hello.Encode h) = .ok h := by
  obtain ⟨chal⟩ := h
  rw [Hello.Encode, Hello.Decode]
  rw [if_neg (by
    rw [not_or]
    constructor
    · rw [not_lt, List.length_append]
      have h16 : chal.length = 16 := hlen
      rw [h16]
      decide
    · rw [List.take_left]
      simp)]
  rw [List.drop_left]
  have h16 : chal.length = 16 := hlen
  have htake : (Hello.Challenge ⟨chal⟩).take 16 = chal := by
    rw [show Hello.Challenge ⟨chal⟩ = chal from rfl, ← h16, List.take_length]
  rw [htake, goCopy_full _ _ (by rw [h16]; decide)]

/-- The wire buffer a successful `Connect.Encode` produces. -/
def encBuf (c : Connect) : List Nat :=
  be16put c.ACLKey.length ++ be16put c.Signature.length ++ c.ACLKey ++ c.Signature

/-- The encode buffer's length is the payload plus the 4-byte header. -/
theorem encBuf_length (c : Connect) :
    (encBuf c).length = c.ACLKey.length + c.Signature.length + 4 := by
  rw [encBuf, List.length_append, List.length_append, List.length_append,
    be16put_length, be16put_length]
  omega

/-- Within the 16-bit limits, `Connect.Encode` succeeds with `encBuf`. -/
theorem connect_encode_ok (c : Connect)
    (hk : c.ACLKey.length ≤ 65535) (hs : c.Signature.length ≤ 65535) :
    Connect.Encode c = .ok (encBuf c) := by
  rw [Connect.Encode, if_neg (by omega)]
  rfl

/-- The declared identity length read back from `encBuf` is the real one. -/
theorem encBuf_declId (c : Connect) (hk : c.ACLKey.length ≤ 65535) :
    declIdLen (encBuf c) = c.ACLKey.length := by
  have h0 : byteAt (encBuf c) 0 = c.ACLKey.length % 65536 / 256 % 256 := rfl
  have h1 : byteAt (encBuf c) (0 + 1) = c.ACLKey.length % 256 % 256 := rfl
  rw [declIdLen, be16At, h0, h1]
  omega

/-- The declared signature length read back from `encBuf` is the real one. -/
theorem encBuf_declSig (c : Connect) (hs : c.Signature.length ≤ 65535) :
    declSigLen (encBuf c) = c.Signature.length := by
  have h2 : byteAt (encBuf c) 2 = c.Signature.length % 65536 / 256 % 256 := rfl
  have h3 : byteAt (encBuf c) (2 + 1) = c.Signature.length % 256 % 256 := rfl
  rw [declSigLen, be16At, h2, h3]
  omega

/-- Dropping the 4-byte header of `encBuf` leaves identity ++ signature. -/
theorem encBuf_drop4 (c : Connect) : (encBuf c).drop 4 = c.ACLKey ++ c.Signature := rfl

/-- The buffer `encBuf` as a flat cons cell chain. -/
theorem encBuf_cons (c : Connect) :
    encBuf c = c.ACLKey.length % 65536 / 256 :: c.ACLKey.length % 256 ::
      c.Signature.length % 65536 / 256 :: c.Signature.length % 256 ::
      (c.ACLKey ++ c.Signature) := rfl

/-- Dropping the header and the identity of `encBuf` leaves the signature. -/
theorem encBuf_drop_id (c : Connect) :
    (encBuf c).drop (4 + c.ACLKey.length) = c.Signature := by
  rw [encBuf_cons, show 4 + c.ACLKey.length = c.ACLKey.length + 1 + 1 + 1 + 1 by omega,
    List.drop_succ_cons, List.drop_succ_cons, List.drop_succ_cons, List.drop_succ_cons,
    List.drop_left]

/-- Decoding an encoded `Connect` into a fresh `Connect` recovers the
message whenever the slice arithmetic cannot wrap. -/
theorem connect_decode_encode (c : Connect)
    (hsum : c.ACLKey.length + c.Signature.length + 4 ≤ 65535) :
    Connect.Decode freshConnect (encBuf c) = .ok c := by
  have hk : c.ACLKey.length ≤ 65535 := by omega
  have hs : c.Signature.length ≤ 65535 := by omega
  have hlen := encBuf_length c
  rw [Connect.Decode, if_neg (by omega)]
  simp only []
  rw [encBuf_declId c hk, encBuf_declSig c hs]
  rw [if_neg (by omega)]
  have hm1 : (4 + c.ACLKey.length) % 65536 = 4 + c.ACLKey.length :=
    Nat.mod_eq_of_lt (by omega)
  have hm2 : (4 + c.ACLKey.length + c.Signature.length) % 65536 =
      4 + c.ACLKey.length + c.Signature.length := Nat.mod_eq_of_lt (by omega)
  rw [hm1, hm2]
  have hs1 : goSlice (encBuf c) 4 (4 + c.ACLKey.length) = some c.ACLKey := by
    rw [goSlice, if_pos ⟨by omega, by omega⟩]
    rw [show 4 + c.ACLKey.length - 4 = c.ACLKey.length by omega, encBuf_drop4,
      List.take_left]
  have hs2 : goSlice (encBuf c) (4 + c.ACLKey.length)
      (4 + c.ACLKey.length + c.Signature.length) = some c.Signature := by
    rw [goSlice, if_pos ⟨by omega, by omega⟩]
    rw [show 4 + c.ACLKey.length + c.Signature.length - (4 + c.ACLKey.length) =
      c.Signature.length by omega, encBuf_drop_id, List.take_length]
  rw [hs1, hs2]

/-- The payload of a successful `ConnectResult.Encode` (`[]` on the panic
path, which the theorems exclude). -/
def optOut (o : Option (List Nat)) : List Nat :=
  match o with
  | some b => b
  | none => []

/-- Decoding a well-formed ConnectResult wire buffer `w :: ml :: T`. -/
theorem connect_result_decode_explicit (c0 : ConnectResult) (w ml : Nat) (T : List Nat)
    (hw : w < 256) (hml : ml ≤ 31) (hT : T.length = ml) (h31 : c0.RawMsg.length = 31) :
    c0.Decode (w :: ml :: T) = .ok ⟨decide (0 < w), T ++ c0.RawMsg.drop ml, ml⟩ := by
  have hb1 : byteAt (w :: ml :: T) 1 = ml % 256 := rfl
  have hb0 : byteAt (w :: ml :: T) 0 = w % 256 := rfl
  rw [ConnectResult.Decode]
  simp only []
  split
  · next hc => exact absurd hc (by simp only [List.length_cons]; omega)
  · split
    · next hc =>
      rw [hb1] at hc
      simp only [List.length_cons] at hc
      omega
    · split
      · next hc =>
        rw [hb1] at hc
        omega
      · split
        · next hc =>
          rw [hb1] at hc
          simp only [List.length_cons] at hc
          omega
        · rw [hb0, hb1]
          rw [Nat.mod_eq_of_lt hw, Nat.mod_eq_of_lt (by omega : ml < 256)]
          rw [show (w :: ml :: T).drop 2 = T from rfl, ← hT, List.take_length, hT]

/-- C6 (amended): encode/decode round-trips.  A `Hello` (16-byte
challenge) round-trips exactly.  A `Connect` round-trips whenever
`4 + idLen + proofLen ≤ 65535` (so the 16-bit slice arithmetic in
`Decode` cannot wrap).  A `ConnectResult` with recorded length at most
31 round-trips in all fields up to that recorded length, the balance of
the fixed buffer being zero-filled in the fresh decode target. -/
theorem round_trip_within_limits :
    (∀ h : Hello, h.Challenge.length = 16 →
      freshHello.Decode h.Encode = .ok h) ∧
    (∀ c : Connect, c.ACLKey.length + c.Signature.length + 4 ≤ 65535 →
      Connect.Encode c ≠ .error .contentTooLong ∧
      Connect.Decode freshConnect (exceptOut (Connect.Encode c)) = .ok c) ∧
    (∀ r : ConnectResult, r.RawMsg.length = 31 → r.MsgLen ≤ 31 →
      ConnectResult.Encode r ≠ none ∧
      freshCR.Decode (optOut r.Encode) =
        .ok ⟨r.Welcome, r.RawMsg.take r.MsgLen ++ List.replicate (31 - r.MsgLen) 0,
          r.MsgLen⟩) := by
  refine ⟨hello_decode_encode, fun c hsum => ?_, fun r h31 hml => ?_⟩
  · have hk : c.ACLKey.length ≤ 65535 := by omega
    have hs : c.Signature.length ≤ 65535 := by omega
    rw [connect_encode_ok c hk hs]
    refine ⟨by simp, ?_⟩
    rw [show exceptOut (.ok (encBuf c)) = encBuf c from rfl]
    exact connect_decode_encode c hsum
  · have henc : r.Encode =
        some ((if r.Welcome then 1 else 0) :: r.MsgLen % 256 :: r.RawMsg.take r.MsgLen) := by
      rw [ConnectResult.Encode, if_neg (by omega)]
    rw [henc]
    refine ⟨by simp, ?_⟩
    rw [show optOut (some ((if r.Welcome then 1 else 0) ::
      r.MsgLen % 256 :: r.RawMsg.take r.MsgLen)) =
      (if r.Welcome then 1 else 0) :: r.MsgLen % 256 :: r.RawMsg.take r.MsgLen from rfl]
    rw [Nat.mod_eq_of_lt (show r.MsgLen < 256 by omega)]
    rw [connect_result_decode_explicit freshCR (if r.Welcome then 1 else 0) r.MsgLen
      (r.RawMsg.take r.MsgLen) (by split <;> omega) hml
      (by rw [List.length_take]; omega) (by decide)]
    have h1 : decide (0 < if r.Welcome then (1 : Nat) else 0) = r.Welcome := by
      cases hrw : r.Welcome <;> decide
    have h2 : freshCR.RawMsg.drop r.MsgLen = List.replicate (31 - r.MsgLen) 0 := by
      rw [show freshCR.RawMsg = List.replicate 31 0 from rfl, List.drop_replicate]
    rw [h1, h2]

/-- Witness for C6: concrete round trips for all three message types. -/
theorem round_trip_within_limits_witness :
    (⟨List.range 16⟩ : Hello).Challenge.length = 16 ∧
    freshHello.Decode (Hello.Encode ⟨List.range 16⟩) = .ok ⟨List.range 16⟩ ∧
    Connect.Decode freshConnect (exceptOut (Connect.Encode ⟨[10], [20, 30]⟩)) =
      .ok ⟨[10], [20, 30]⟩ ∧
    freshCR.Decode (optOut (ConnectResult.Encode ⟨true, List.replicate 31 5, 2⟩)) =
      .ok ⟨true, (List.replicate 31 5).take 2 ++ List.replicate 29 0, 2⟩ :=
  ⟨by decide, round_trip_within_limits.1 ⟨List.range 16⟩ (by decide),
   (round_trip_within_limits.2.1 ⟨[10], [20, 30]⟩ (by decide)).2,
   (round_trip_within_limits.2.2 ⟨true, List.replicate 31 5, 2⟩ (by decide) (by decide)).2⟩

/-- A 65536-byte buffer declaring a 65532-byte identity and an empty
signature: the `int`-arithmetic length guard passes, but `4 + 65532`
wraps to 0 on `uint16`, so the identity slice is `buf[4:0]` and the Go
runtime panics. -/
def bigConnectBuf : List Nat := 255 :: 252 :: 0 :: 0 :: List.replicate 65532 0

/-- The buffer `bigConnectBuf` has 65536 bytes. -/
theorem bigConnectBuf_length : bigConnectBuf.length = 65536 := by
  rw [bigConnectBuf, List.length_cons, List.length_cons, List.length_cons,
    List.length_cons, List.length_replicate]

/-- The buffer `bigConnectBuf` declares a 65532-byte identity. -/
theorem bigConnectBuf_declId : declIdLen bigConnectBuf = 65532 := by decide

/-- The buffer `bigConnectBuf` declares an empty signature. -/
theorem bigConnectBuf_declSig : declSigLen bigConnectBuf = 0 := by decide

/-- Decoding `bigConnectBuf` hits the wrapped slice bound and panics. -/
theorem bigConnectBuf_decode_panicked :
    Connect.Decode freshConnect bigConnectBuf = .panicked := by
  rw [Connect.Decode, if_neg (by rw [bigConnectBuf_length]; omega)]
  simp only []
  rw [bigConnectBuf_declId, bigConnectBuf_declSig]
  rw [if_neg (by rw [bigConnectBuf_length]; omega)]
  rw [show (4 + 65532) % 65536 = 0 by decide]
  rw [show goSlice bigConnectBuf 4 0 = none by rw [goSlice, if_neg (by omega)]]

/-- C2 counterexample: on `bigConnectBuf` the declared lengths fit in
the buffer — the `InvalidPacket` guard passes — yet decode neither
succeeds nor returns an error: it panics on the wrapped slice bound. -/
theorem connect_decode_wrap_counterexample :
    declIdLen bigConnectBuf + declSigLen bigConnectBuf + 4 ≤ bigConnectBuf.length ∧
    Connect.Decode freshConnect bigConnectBuf = .panicked := by
  refine ⟨?_, bigConnectBuf_decode_panicked⟩
  rw [bigConnectBuf_declId, bigConnectBuf_declSig, bigConnectBuf_length]

/-- Witness for C2: concrete short-buffer and bad-length rejections plus
a concrete successful decode described by the declared-length slices. -/
theorem connect_decode_spec_witness :
    Connect.Decode freshConnect [0] = .err freshConnect .invalidPacket ∧
    Connect.Decode freshConnect [0, 2, 0, 0, 5] = .err freshConnect .invalidPacket ∧
    (⟨[9], [8]⟩ : Connect).ACLKey =
      (([0, 1, 0, 1, 9, 8] : List Nat).drop 4).take (declIdLen [0, 1, 0, 1, 9, 8]) ∧
    (⟨[9], [8]⟩ : Connect).Signature =
      (([0, 1, 0, 1, 9, 8] : List Nat).drop
        (4 + declIdLen [0, 1, 0, 1, 9, 8])).take (declSigLen [0, 1, 0, 1, 9, 8]) :=
  ⟨(connect_decode_spec freshConnect [0]).1 (by decide),
   (connect_decode_spec freshConnect [0, 2, 0, 0, 5]).2.1 (by decide) (by decide),
   ((connect_decode_spec freshConnect [0, 1, 0, 1, 9, 8]).2.2.1 ⟨[9], [8]⟩ (by decide)).1,
   ((connect_decode_spec freshConnect [0, 1, 0, 1, 9, 8]).2.2.1 ⟨[9], [8]⟩ (by decide)).2⟩

/-- A `Connect` with a 65532-byte identity and an empty proof: both
fields are within the 65535-byte limit the claim names. -/
def bigIdConnect : Connect := ⟨List.replicate 65532 0, []⟩

/-- Encoding `bigIdConnect` produces exactly `bigConnectBuf`. -/
theorem bigIdConnect_encBuf : encBuf bigIdConnect = bigConnectBuf := by
  rw [encBuf_cons]
  rw [show bigIdConnect.ACLKey.length = 65532 by
    rw [show bigIdConnect.ACLKey = List.replicate 65532 0 from rfl, List.length_replicate]]
  rw [show bigIdConnect.Signature.length = 0 by decide]
  rw [show bigIdConnect.ACLKey = List.replicate 65532 0 from rfl,
    show bigIdConnect.Signature = ([] : List Nat) from rfl, List.append_nil]
  rw [show (65532 : Nat) % 65536 / 256 = 255 by decide,
    show (65532 : Nat) % 256 = 252 by decide]
  rw [bigConnectBuf]

/-- C6 counterexample: `bigIdConnect` keeps both fields at or below
65535 bytes and encodes successfully, yet decoding the encoded buffer
panics instead of reproducing the message. -/
theorem connect_round_trip_counterexample :
    bigIdConnect.ACLKey.length ≤ 65535 ∧ bigIdConnect.Signature.length ≤ 65535 ∧
    Connect.Encode bigIdConnect = .ok bigConnectBuf ∧
    Connect.Decode freshConnect bigConnectBuf = .panicked := by
  have hk : bigIdConnect.ACLKey.length ≤ 65535 := by
    rw [show bigIdConnect.ACLKey = List.replicate 65532 0 from rfl, List.length_replicate]
    omega
  refine ⟨hk, by decide, ?_, bigConnectBuf_decode_panicked⟩
  rw [connect_encode_ok bigIdConnect hk (by decide), bigIdConnect_encBuf]

/-- The C1 failing input: a 42-byte buffer whose declared message length
is 40 — more than the 31-byte capacity, yet `2 + 40` does not exceed the
buffer length. -/
def overlongMsgBuf : List Nat := 0 :: 40 :: List.replicate 40 0

/-- C1 (code bug): on `overlongMsgBuf` the declared length 40 exceeds
the 31-byte capacity while `2 + 40 ≤ 42` passes the only length check in
the code, so `Decode` slices the 31-byte array to 40 elements and
panics instead of returning `InvalidPacket` as the spec requires. -/
theorem connect_result_decode_overlong_panics :
    31 < byteAt overlongMsgBuf 1 ∧
    2 + byteAt overlongMsgBuf 1 ≤ overlongMsgBuf.length ∧
    freshCR.Decode overlongMsgBuf = .panicked := by
  decide

end UTT
